import Mathlib

/-!
Verification of the RSVP reader core: the text preprocessor
(`src/utils/orp.ts`) and the playback scheduler (`src/components/RSVP.tsx`),
shallowly embedded in Lean.  JavaScript strings are modelled as `List Char`
and JavaScript numbers as `ℚ` (exact arithmetic).
-/

namespace RSVP

/-- Models the JavaScript whitespace class `\s` (also the set removed by
`String.prototype.trim`): ASCII whitespace plus the common Unicode space
characters.  None of the verified properties depends on the exact set. -/
def isWS (c : Char) : Bool :=
  c = ' ' || c = '\t' || c = '\n' || c = '\r' || c = '\x0b' || c = '\x0c' ||
  c = '\u00a0' || c = '\u2028' || c = '\u2029' || c = '\ufeff'

/-- Models `String.prototype.trim`: removes whitespace from both ends. -/
def trim (l : List Char) : List Char :=
  ((l.dropWhile isWS).reverse.dropWhile isWS).reverse

/-- Embeds `calculateORP` (src/utils/orp.ts lines 14-19):
`if (word.length === 0) return 0; if (word.length <= 3) return
Math.floor(word.length / 2); return Math.max(1, Math.floor(word.length / 3));` -/
def calculateORP (word : List Char) : Nat :=
  if word.length = 0 then 0
  else if word.length ≤ 3 then word.length / 2
  else max 1 (word.length / 3)

/-- Embeds `getPunctuationMultiplier` (src/utils/orp.ts lines 25-34).
`word[word.length - 1]` is `undefined` on the empty string, modelled by
`List.getLast? = none`, which matches neither branch.  The decimal literals
`1.3` and `1.15` are the rationals `13/10` and `23/20`. -/
def getPunctuationMultiplier (word : List Char) : ℚ :=
  let lastChar := word.getLast?
  if lastChar = some '.' || lastChar = some '!' || lastChar = some '?' then 13/10
  else if lastChar = some ',' || lastChar = some ';' || lastChar = some ':' then 23/20
  else 1

/-- Embeds the interface `PreprocessedWord` (src/utils/orp.ts lines 40-47),
including the `WordData` fields `word` and `anchorIndex`. -/
structure PreprocessedWord where
  word : List Char
  anchorIndex : Nat
  duration : ℚ
  beforeText : List Char
  anchorChar : List Char
  afterText : List Char
  beforeOffset : ℚ
  afterOffset : ℚ
deriving DecidableEq, Repr

/-- Embeds `calculateMonospaceCharWidth` (src/utils/orp.ts lines 57-62):
`fontSizePx = fontSize * 16; return fontSizePx * 0.6`. -/
def calculateMonospaceCharWidth (fontSize : ℚ) : ℚ :=
  (fontSize * 16) * (6/10)

/-- Embeds the tokenisation step of `processText` (src/utils/orp.ts line 76):
`text.split(/\s+/).filter((word) => word.length > 0)`.  `List.splitOnP`
splits at every separator character where the regex splits at maximal runs,
but after discarding the empty tokens the two results coincide. -/
def jsTokens (text : List Char) : List (List Char) :=
  (text.splitOnP isWS).filter (fun w => decide (w.length > 0))

/-- Embeds `processText` (src/utils/orp.ts lines 74-111).  In the source
`baseWpm` defaults to `300` and `fontSize` to `8`; here both are explicit
arguments.  `trimmed[anchorIndex] || ''` yields a one-character string or,
past the end, the empty string: modelled by matching `List.get?`. -/
def processText (text : List Char) (baseWpm : ℚ) (fontSize : ℚ) :
    List PreprocessedWord :=
  let words := (text.splitOnP isWS).filter (fun w => decide (w.length > 0))
  let baseDuration := (60 / baseWpm) * 1000
  let charWidth := calculateMonospaceCharWidth fontSize
  let anchorCharWidth := charWidth
  words.map (fun word =>
    let trimmed := trim word
    let anchorIndex := calculateORP trimmed
    let multiplier := getPunctuationMultiplier trimmed
    let beforeText := trimmed.take anchorIndex
    let anchorChar := match trimmed.get? anchorIndex with
      | some c => [c]
      | none => []
    let afterText := trimmed.drop (anchorIndex + 1)
    { word := trimmed
      anchorIndex := anchorIndex
      duration := baseDuration * multiplier
      beforeText := beforeText
      anchorChar := anchorChar
      afterText := afterText
      beforeOffset := -(anchorCharWidth / 2)
      afterOffset := anchorCharWidth / 2 })

/-- Embeds `calculateIntervalMs` (src/utils/orp.ts lines 121-123). -/
def calculateIntervalMs (wpm : ℚ) : ℚ :=
  (60 / wpm) * 1000

/-- States the spec's anchor-index formula as a function of the word length
alone, to be compared with `calculateORP`: length 0 gives 0, length 1-3
gives `floor(length / 2)`, longer words give `max 1 (floor(length / 3))`. -/
def specAnchorIndex (n : Nat) : Nat :=
  if n = 0 then 0
  else if n ≤ 3 then n / 2
  else max 1 (n / 3)

/-! Playback scheduler (src/components/RSVP.tsx).  The component state and
the refs it mirrors are collected into one record; the handlers and the
per-frame sampling step become functions on it. -/

/-- Embeds the derived transport state `ReadingState` (src/types/rsvp.ts):
`idle`, `playing` or `paused`, derived in `RSVPControls` from the flag pair
(`isPaused` shows Resume, `isPlaying && !isPaused` shows Pause, neither
shows Start). -/
inductive ReadingState where
  | idle
  | playing
  | paused
deriving DecidableEq, Repr

/-- Embeds the mutable state of the `RSVP` component
(src/components/RSVP.tsx lines 15-31): the React state and the refs that
mirror it for the playback loop.  `wordIndex` models `wordIndexRef`,
`lastTime` models `lastTimeRef`, `words` models
`preprocessedWords`/`wordsRef`. -/
structure RSVPState where
  words : List PreprocessedWord
  currentWord : Option PreprocessedWord
  isPlaying : Bool
  isPaused : Bool
  currentWordIndex : Nat
  wordIndex : Nat
  lastTime : ℚ
deriving DecidableEq, Repr

/-- Derives the transport state from the flag pair, as the controls do. -/
def readingState (s : RSVPState) : ReadingState :=
  if s.isPaused then ReadingState.paused
  else if s.isPlaying then ReadingState.playing
  else ReadingState.idle

/-- Embeds one invocation of `loop` (src/components/RSVP.tsx lines 74-110):
a single `requestAnimationFrame` sample at clock value `now`.  The
boundary-crossing step is the single `if (delta >= currentWordData.duration)`
of lines 94-106, which on success advances the index by one and adds the
record's nominal duration to `lastTimeRef` (line 105). -/
def loopStep (s : RSVPState) (now : ℚ) : RSVPState :=
  if !s.isPlaying || s.isPaused then s
  else if h : s.wordIndex ≥ s.words.length then
    { s with isPlaying := false, isPaused := false }
  else
    let delta := now - s.lastTime
    let currentWordData := s.words.get ⟨s.wordIndex, by omega⟩
    if delta ≥ currentWordData.duration then
      { s with
        currentWord := some currentWordData
        currentWordIndex := s.wordIndex
        wordIndex := s.wordIndex + 1
        lastTime := s.lastTime + currentWordData.duration }
    else s

/-- Runs the sampling loop over a whole list of (possibly irregular) sample
timestamps. -/
def runSamples (s : RSVPState) (ts : List ℚ) : RSVPState :=
  ts.foldl loopStep s

/-- Embeds the guard of the playback effect (src/components/RSVP.tsx line
63): `!isPlaying || isPaused || wordsRef.current.length === 0`; when it is
`true` the effect cancels any frame and never starts the sampling loop. -/
def loopGuardBlocks (s : RSVPState) : Bool :=
  !s.isPlaying || s.isPaused || s.words.length == 0

/-- Embeds `handleStart` (src/components/RSVP.tsx lines 152-160). -/
def handleStart (s : RSVPState) : RSVPState :=
  if s.words.length = 0 then s
  else
    let s1 := if s.wordIndex ≥ s.words.length then
        { s with wordIndex := 0, currentWordIndex := 0 }
      else s
    { s1 with isPlaying := true, isPaused := false }

/-- Embeds `handlePause` (src/components/RSVP.tsx lines 163-166). -/
def handlePause (s : RSVPState) : RSVPState :=
  { s with isPaused := true, isPlaying := false }

/-- Embeds `handleResume` (src/components/RSVP.tsx lines 169-176).  Unlike
`handleStart` it has no early return on an empty sequence. -/
def handleResume (s : RSVPState) : RSVPState :=
  let s1 := if s.words.length = 0 ∨ s.wordIndex ≥ s.words.length then
      { s with wordIndex := 0, currentWordIndex := 0 }
    else s
  { s1 with isPlaying := true, isPaused := false }

/-- Embeds `handleStop` (src/components/RSVP.tsx lines 179-185). -/
def handleStop (s : RSVPState) : RSVPState :=
  { s with
    isPlaying := false
    isPaused := false
    wordIndex := 0
    currentWordIndex := 0
    currentWord := none }

/-- Sum of the nominal durations of the records with indices in `[a, b)`. -/
def durSum (ws : List PreprocessedWord) (a b : Nat) : ℚ :=
  (((ws.drop a).take (b - a)).map (fun w => w.duration)).sum

/-- Duration of the record at index `i`, or `0` past the end. -/
def durAt (ws : List PreprocessedWord) (i : Nat) : ℚ :=
  ((ws.map (fun w => w.duration)).getD i 0)

/-! Concrete values used to exercise the theorems on explicit inputs. -/

/-- The record `processText` produces for the single word `cat` at 300 WPM
and font size 8 (base duration 200 ms, no punctuation, half character width
`8 * 16 * 0.6 / 2 = 192/5`). -/
def catRec : PreprocessedWord :=
  { word := "cat".data
    anchorIndex := 1
    duration := 200
    beforeText := "c".data
    anchorChar := "a".data
    afterText := "t".data
    beforeOffset := -(192/5)
    afterOffset := 192/5 }

/-- First record of `processText "aa bb"` at 300 WPM. -/
def recAA : PreprocessedWord :=
  { word := "aa".data
    anchorIndex := 1
    duration := 200
    beforeText := "a".data
    anchorChar := "a".data
    afterText := []
    beforeOffset := -(192/5)
    afterOffset := 192/5 }

/-- Second record of `processText "aa bb"` at 300 WPM. -/
def recBB : PreprocessedWord :=
  { word := "bb".data
    anchorIndex := 1
    duration := 200
    beforeText := "b".data
    anchorChar := "b".data
    afterText := []
    beforeOffset := -(192/5)
    afterOffset := 192/5 }

/-- A playback state at the start of the two-word sequence `aa bb`
(200 ms per word), playing, with the clock baseline at 0.  Its `words` are
exactly `processText "aa bb"` at 300 WPM (theorem `cexState_words`). -/
def cexState : RSVPState :=
  { words := [recAA, recBB]
    currentWord := none
    isPlaying := true
    isPaused := false
    currentWordIndex := 0
    wordIndex := 0
    lastTime := 0 }

/-- The idle state with no text loaded. -/
def emptyIdle : RSVPState :=
  { words := []
    currentWord := none
    isPlaying := false
    isPaused := false
    currentWordIndex := 0
    wordIndex := 0
    lastTime := 0 }

/-! Helper lemmas about the tokeniser. -/

/-- Tokens produced by `splitOnP` contain no separator character. -/
theorem no_sep_of_mem_splitOnP {p : Char → Bool} :
    ∀ {l w : List Char}, w ∈ l.splitOnP p → ∀ c ∈ w, p c = false := by
  intro l
  induction l with
  | nil =>
    intro w hw c hc
    simp only [List.splitOnP_nil, List.mem_singleton] at hw
    subst hw
    cases hc
  | cons x xs ih =>
    intro w hw c hc
    rw [List.splitOnP_cons] at hw
    by_cases hx : p x
    · rw [if_pos hx] at hw
      rcases List.mem_cons.mp hw with h | h
      · subst h; cases hc
      · exact ih h c hc
    · rw [if_neg hx] at hw
      rcases hhd : xs.splitOnP p with _ | ⟨hd, tl⟩
      · exact absurd hhd (List.splitOnP_ne_nil p xs)
      · rw [hhd] at hw
        simp only [List.modifyHead, List.mem_cons] at hw
        rcases hw with h | h
        · subst h
          rcases List.mem_cons.mp hc with h | h
          · subst h; exact Bool.eq_false_iff.mpr hx
          · exact ih (hhd ▸ List.mem_cons_self hd tl) c h
        · exact ih (hhd ▸ List.mem_cons_of_mem hd h) c hc

/-- If every character of the input is a separator, splitting and dropping
empty tokens leaves nothing. -/
theorem splitOnP_filter_nil_of_all_sep {p : Char → Bool} :
    ∀ {l : List Char}, (∀ c ∈ l, p c = true) →
      (l.splitOnP p).filter (fun w => decide (w.length > 0)) = [] := by
  intro l
  induction l with
  | nil => intro _; rfl
  | cons x xs ih =>
    intro h
    rw [List.splitOnP_cons, if_pos (h x (List.mem_cons_self x xs))]
    simpa using ih (fun c hc => h c (List.mem_cons_of_mem x hc))

/-- Dropping a prefix of elements satisfying `p` from a list none of whose
elements satisfies `p` changes nothing. -/
theorem dropWhile_eq_self_of_none {p : Char → Bool} {l : List Char}
    (h : ∀ c ∈ l, p c = false) : l.dropWhile p = l := by
  cases l with
  | nil => rfl
  | cons x xs =>
    rw [List.dropWhile_cons, h x (List.mem_cons_self x xs)]
    simp

/-- `trim` is the identity on strings containing no whitespace. -/
theorem trim_eq_self {w : List Char} (h : ∀ c ∈ w, isWS c = false) :
    trim w = w := by
  unfold trim
  rw [dropWhile_eq_self_of_none h,
    dropWhile_eq_self_of_none (fun c hc => h c (List.mem_reverse.mp hc)),
    List.reverse_reverse]

/-- The anchor index lands strictly inside every non-empty word. -/
theorem calculateORP_lt_length {w : List Char} (h : w ≠ []) :
    calculateORP w < w.length := by
  have hlen : w.length ≠ 0 := fun h0 => h (List.length_eq_zero.mp h0)
  unfold calculateORP
  rw [if_neg hlen]
  by_cases h3 : w.length ≤ 3
  · rw [if_pos h3]; omega
  · rw [if_neg h3]
    exact Nat.max_lt.mpr ⟨by omega, by omega⟩

/-- Splitting a list at an in-range index into take / element / drop gives
back the list. -/
theorem take_get_drop_eq {t : List Char} {n : Nat} (h : n < t.length) :
    t.take n ++ (match t.get? n with | some c => [c] | none => []) ++
      t.drop (n + 1) = t := by
  rw [List.get?_eq_get h]
  show t.take n ++ [t.get ⟨n, h⟩] ++ t.drop (n + 1) = t
  rw [show t.get ⟨n, h⟩ = t[n] from rfl, List.take_concat_get' t n h,
    List.take_append_drop]

/-- Every record of `processText` arises from a token of the split. -/
theorem mem_processText {text : List Char} {wpm fs : ℚ} {r : PreprocessedWord}
    (hr : r ∈ processText text wpm fs) :
    ∃ w ∈ jsTokens text,
      r = { word := trim w
            anchorIndex := calculateORP (trim w)
            duration := ((60 / wpm) * 1000) * getPunctuationMultiplier (trim w)
            beforeText := (trim w).take (calculateORP (trim w))
            anchorChar := match (trim w).get? (calculateORP (trim w)) with
              | some c => [c]
              | none => []
            afterText := (trim w).drop (calculateORP (trim w) + 1)
            beforeOffset := -(calculateMonospaceCharWidth fs / 2)
            afterOffset := calculateMonospaceCharWidth fs / 2 } := by
  simp only [processText, List.mem_map] at hr
  obtain ⟨w, hw, rfl⟩ := hr
  exact ⟨w, hw, rfl⟩

/-- Every token of the split is non-empty and whitespace-free, so `trim`
leaves it unchanged and non-empty. -/
theorem token_facts {text : List Char} {w : List Char}
    (hw : w ∈ jsTokens text) : trim w = w ∧ w ≠ [] := by
  simp only [jsTokens, List.mem_filter] at hw
  obtain ⟨hmem, hlen⟩ := hw
  have hne : w ≠ [] := by
    intro h0
    subst h0
    simp at hlen
  exact ⟨trim_eq_self (no_sep_of_mem_splitOnP hmem), hne⟩

theorem durSum_self (ws : List PreprocessedWord) (a : Nat) :
    durSum ws a a = 0 := by
  simp [durSum]

theorem durSum_succ (ws : List PreprocessedWord) (a : Nat)
    (h : a < ws.length) :
    durSum ws a (a + 1) = (ws.get ⟨a, h⟩).duration := by
  unfold durSum
  have h1 : a + 1 - a = 1 := by omega
  rw [h1, List.drop_eq_getElem_cons h, List.take_succ_cons, List.take_zero]
  simp

theorem durSum_trans (ws : List PreprocessedWord) {a b c : Nat}
    (hab : a ≤ b) (hbc : b ≤ c) :
    durSum ws a b + durSum ws b c = durSum ws a c := by
  unfold durSum
  have hc : c - a = (b - a) + (c - b) := by omega
  rw [hc, List.take_add, List.map_append, List.sum_append, List.drop_drop]
  have hb : a + (b - a) = b := by omega
  rw [hb]

/-- One sampling step never changes the sequence, never moves the index
backwards, and moves `lastTime` forward by exactly the nominal durations of
the records it advanced past. -/
theorem loopStep_invariant (s : RSVPState) (now : ℚ) :
    (loopStep s now).words = s.words ∧
    s.wordIndex ≤ (loopStep s now).wordIndex ∧
    (loopStep s now).lastTime =
      s.lastTime + durSum s.words s.wordIndex (loopStep s now).wordIndex := by
  unfold loopStep
  by_cases h1 : !s.isPlaying || s.isPaused
  · rw [if_pos h1]
    refine ⟨rfl, Nat.le_refl _, ?_⟩
    rw [durSum_self]; ring
  · rw [if_neg h1]
    by_cases h2 : s.wordIndex ≥ s.words.length
    · rw [dif_pos h2]
      refine ⟨rfl, Nat.le_refl _, ?_⟩
      rw [durSum_self]; ring
    · rw [dif_neg h2]
      by_cases h3 : now - s.lastTime ≥
          (s.words.get ⟨s.wordIndex, by omega⟩).duration
      · simp only [if_pos h3]
        refine ⟨trivial, Nat.le_succ _, ?_⟩
        rw [durSum_succ s.words s.wordIndex (by omega)]
      · simp only [if_neg h3]
        refine ⟨trivial, Nat.le_refl _, ?_⟩
        rw [durSum_self]; ring

/-- The invariant of `loopStep_invariant`, extended over any list of sample
timestamps. -/
theorem runSamples_invariant (s : RSVPState) (ts : List ℚ) :
    (runSamples s ts).words = s.words ∧
    s.wordIndex ≤ (runSamples s ts).wordIndex ∧
    (runSamples s ts).lastTime =
      s.lastTime + durSum s.words s.wordIndex (runSamples s ts).wordIndex := by
  induction ts generalizing s with
  | nil =>
    refine ⟨rfl, Nat.le_refl _, ?_⟩
    show s.lastTime = s.lastTime + durSum s.words s.wordIndex s.wordIndex
    rw [durSum_self]; ring
  | cons t ts ih =>
    have hstep := loopStep_invariant s t
    have hrest := ih (loopStep s t)
    have hrun : runSamples s (t :: ts) = runSamples (loopStep s t) ts := rfl
    refine ⟨?_, ?_, ?_⟩
    · rw [hrun, hrest.1, hstep.1]
    · exact Nat.le_trans hstep.2.1 (hrun ▸ hrest.2.1)
    · rw [hrun, hrest.2.2, hstep.2.2, hstep.1]
      rw [add_assoc]
      congr 1
      exact durSum_trans s.words hstep.2.1 hrest.2.1

/-! Evaluation lemmas for the concrete inputs. -/

theorem processText_cat : processText "cat".data 300 8 = [catRec] := by
  simp +decide [processText, isWS, trim, calculateORP, getPunctuationMultiplier,
    calculateMonospaceCharWidth, List.dropWhile_cons, List.splitOnP_cons, catRec]
  norm_num

theorem catRec_mem : catRec ∈ processText "cat".data 300 8 := by
  rw [processText_cat]
  exact List.mem_singleton.mpr rfl

theorem processText_aabb :
    processText "aa bb".data 300 8 = [recAA, recBB] := by
  simp +decide [processText, isWS, trim, calculateORP, getPunctuationMultiplier,
    calculateMonospaceCharWidth, List.dropWhile_cons, List.splitOnP_cons,
    recAA, recBB]
  norm_num

theorem cexState_words : cexState.words = processText "aa bb".data 300 8 :=
  processText_aabb.symm

/-- Evaluates one sampling step on `cexState` with a sample 1000 ms after
the baseline: exactly one boundary is crossed. -/
theorem loopStep_cexState_eval :
    loopStep cexState 1000 =
      { cexState with
        currentWord := some recAA
        currentWordIndex := 0
        wordIndex := 1
        lastTime := 200 } := by
  norm_num [loopStep, cexState, recAA, recBB]


/-- C3: for every record produced by `processText`, the three display parts
concatenate back to the word, the anchor is a single character whenever the
word is non-empty, and all three parts are empty when the word is empty. -/
theorem C3_partition (text : List Char) (wpm fs : ℚ) (r : PreprocessedWord)
    (hr : r ∈ processText text wpm fs) :
    r.beforeText ++ r.anchorChar ++ r.afterText = r.word ∧
    (r.word ≠ [] → r.anchorChar.length = 1) ∧
    (r.word = [] → r.beforeText = [] ∧ r.anchorChar = [] ∧ r.afterText = []) := by
  obtain ⟨w, hw, rfl⟩ := mem_processText hr
  obtain ⟨htrim, hne⟩ := token_facts hw
  have htne : trim w ≠ [] := by
    rw [htrim]
    exact hne
  have hlt : calculateORP (trim w) < (trim w).length := calculateORP_lt_length htne
  refine ⟨take_get_drop_eq hlt, ?_, ?_⟩
  · intro _
    show (match (trim w).get? (calculateORP (trim w)) with
      | some c => [c] | none => []).length = 1
    rw [List.get?_eq_get hlt]
    rfl
  · intro h0
    exact absurd h0 htne

/-- Witness for `C3_partition` at the concrete record of `processText "cat"`. -/
theorem C3_partition_witness :
    catRec.beforeText ++ catRec.anchorChar ++ catRec.afterText = catRec.word ∧
    (catRec.word ≠ [] → catRec.anchorChar.length = 1) ∧
    (catRec.word = [] →
      catRec.beforeText = [] ∧ catRec.anchorChar = [] ∧ catRec.afterText = []) :=
  C3_partition "cat".data 300 8 catRec catRec_mem

/-- C4: the anchor index is a pure function of the word length, namely
`specAnchorIndex`: length 0 gives 0, length 1-3 gives `floor(len/2)`,
longer gives `max 1 (floor(len/3))`; in particular `a` gives 0, `cat`
gives 1 and `reading` gives 2. -/
theorem C4_anchorIndex :
    (∀ w : List Char, calculateORP w = specAnchorIndex w.length) ∧
    (∀ (text : List Char) (wpm fs : ℚ) (r : PreprocessedWord),
      r ∈ processText text wpm fs →
        r.anchorIndex = specAnchorIndex r.word.length) ∧
    calculateORP "a".data = 0 ∧ calculateORP "cat".data = 1 ∧
    calculateORP "reading".data = 2 := by
  refine ⟨fun w => rfl, ?_, by decide, by decide, by decide⟩
  intro text wpm fs r hr
  obtain ⟨w, hw, rfl⟩ := mem_processText hr
  rfl

/-- Witness for `C4_anchorIndex` at the concrete record of
`processText "cat"`. -/
theorem C4_anchorIndex_witness :
    catRec.anchorIndex = specAnchorIndex catRec.word.length :=
  C4_anchorIndex.2.1 "cat".data 300 8 catRec catRec_mem

/-- C9: `processText` is deterministic; as a pure Lean function of its
arguments, two calls with identical arguments are definitionally the same
sequence, with no hidden state, randomness or clock. -/
theorem C9_deterministic (text : List Char) (wpm fs : ℚ) :
    processText text wpm fs = processText text wpm fs := rfl

/-- C10: whitespace-only input produces the empty sequence, and every
record `processText` produces has a non-empty word, so the data model's
empty-word case is unreachable through the preprocessor. -/
theorem C10_no_empty_words :
    (∀ (text : List Char) (wpm fs : ℚ), (∀ c ∈ text, isWS c = true) →
      processText text wpm fs = []) ∧
    (∀ (text : List Char) (wpm fs : ℚ) (r : PreprocessedWord),
      r ∈ processText text wpm fs → r.word ≠ []) := by
  constructor
  · intro text wpm fs h
    simp only [processText]
    rw [splitOnP_filter_nil_of_all_sep h]
    rfl
  · intro text wpm fs r hr
    obtain ⟨w, hw, rfl⟩ := mem_processText hr
    obtain ⟨htrim, hne⟩ := token_facts hw
    show trim w ≠ []
    rw [htrim]
    exact hne

/-- Witness for `C10_no_empty_words`: a space-tab-newline input yields no
records, and the `cat` record's word is non-empty. -/
theorem C10_no_empty_words_witness :
    processText [' ', '\t', '\n'] 300 8 = [] ∧ catRec.word ≠ [] :=
  ⟨C10_no_empty_words.1 [' ', '\t', '\n'] 300 8 (by decide),
   C10_no_empty_words.2 "cat".data 300 8 catRec catRec_mem⟩


/-- Applying a function that fixes every member of a list maps the list to
itself. -/
theorem map_eq_self_of {α : Type} {f : α → α} :
    ∀ {l : List α}, (∀ a ∈ l, f a = a) → l.map f = l := by
  intro l
  induction l with
  | nil => intro _; rfl
  | cons x xs ih =>
    intro h
    rw [List.map_cons, h x (List.mem_cons_self x xs),
      ih (fun a ha => h a (List.mem_cons_of_mem x ha))]

/-- C6: `processText` yields exactly one record per whitespace-separated
token, in document order (record `i`'s word is token `i`), so its length is
the token count. -/
theorem C6_record_per_token (text : List Char) (wpm fs : ℚ) :
    (processText text wpm fs).length = (jsTokens text).length ∧
    (processText text wpm fs).map (fun r => r.word) = jsTokens text := by
  have hmap : (processText text wpm fs).map (fun r => r.word) = jsTokens text := by
    simp only [processText, List.map_map]
    exact map_eq_self_of (fun w hw => (token_facts hw).1)
  constructor
  · rw [← hmap, List.length_map]
  · exact hmap

/-- C5: each record's duration is the base duration `(60 / wpm) * 1000`
scaled by a multiplier depending only on the final character (sentence
punctuation 1.3, clause punctuation 1.15, otherwise 1); at 300 WPM the
words of `dog. cat, fish` get 260, 230 and 200 ms. -/
theorem C5_durations :
    (∀ (text : List Char) (wpm fs : ℚ) (r : PreprocessedWord),
      r ∈ processText text wpm fs →
        r.duration = ((60 / wpm) * 1000) * getPunctuationMultiplier r.word) ∧
    (∀ (w : List Char) (c : Char), w.getLast? = some c →
      getPunctuationMultiplier w =
        (if c = '.' ∨ c = '!' ∨ c = '?' then 13/10
         else if c = ',' ∨ c = ';' ∨ c = ':' then 23/20
         else 1)) ∧
    (processText "dog. cat, fish".data 300 8).map (fun r => r.duration) =
      [260, 230, 200] := by
  refine ⟨?_, ?_, ?_⟩
  · intro text wpm fs r hr
    obtain ⟨w, hw, rfl⟩ := mem_processText hr
    rfl
  · intro w c h
    simp only [getPunctuationMultiplier, h, Option.some.injEq, Bool.or_eq_true,
      decide_eq_true_eq, or_assoc]
  · simp +decide [processText, isWS, trim, calculateORP, getPunctuationMultiplier,
      calculateMonospaceCharWidth, List.dropWhile_cons, List.splitOnP_cons]
    norm_num

/-- Witness for `C5_durations`: the `cat` record at 300 WPM satisfies the
duration formula, and a word ending in a period gets multiplier 1.3. -/
theorem C5_durations_witness :
    catRec.duration = ((60 / 300) * 1000) * getPunctuationMultiplier catRec.word ∧
    getPunctuationMultiplier "dog.".data = 13/10 := by
  constructor
  · exact C5_durations.1 "cat".data 300 8 catRec catRec_mem
  · have h := C5_durations.2.1 "dog.".data '.' (by decide)
    rw [h]
    norm_num


/-- C1: while playing, every boundary crossing advances `lastTime` by the
record's nominal duration rather than snapping it to the sample's `now`, so
over any sequence of (possibly irregular) sample timestamps the cumulative
scheduled boundary time equals the sum of the nominal durations of the
records advanced past; starting from index 0 this is exactly the sum of the
first N durations after N advances. -/
theorem C1_drift_free (s : RSVPState) (ts : List ℚ) :
    (runSamples s ts).words = s.words ∧
    s.wordIndex ≤ (runSamples s ts).wordIndex ∧
    (runSamples s ts).lastTime =
      s.lastTime + durSum s.words s.wordIndex (runSamples s ts).wordIndex ∧
    (s.wordIndex = 0 →
      (runSamples s ts).lastTime =
        s.lastTime +
          (((s.words.take ((runSamples s ts).wordIndex)).map
            (fun w => w.duration)).sum)) := by
  obtain ⟨h1, h2, h3⟩ := runSamples_invariant s ts
  refine ⟨h1, h2, h3, ?_⟩
  intro h0
  rw [h3, h0]
  rfl

/-- Witness for `C1_drift_free` on a concrete playing state with index 0. -/
theorem C1_drift_free_witness :
    (runSamples cexState [1000]).lastTime =
      cexState.lastTime +
        (((cexState.words.take ((runSamples cexState [1000]).wordIndex)).map
          (fun w => w.duration)).sum) :=
  (C1_drift_free cexState [1000]).2.2.2 rfl

/-- C2 fails on the code: the boundary-crossing step is a single `if`, not
a loop.  At `cexState` (two 200 ms records, baseline 0) a single sample at
1000 ms crosses only one boundary: afterwards the sequence is not exhausted
and the remaining elapsed time 800 is still at least the current record's
duration 200, contradicting the claim that a sample catches up past every
covered boundary. -/
theorem C2_counterexample :
    (loopStep cexState 1000).isPlaying = true ∧
    (loopStep cexState 1000).wordIndex < (loopStep cexState 1000).words.length ∧
    ¬(1000 - (loopStep cexState 1000).lastTime <
        durAt (loopStep cexState 1000).words (loopStep cexState 1000).wordIndex) := by
  rw [loopStep_cexState_eval]
  norm_num [cexState, durAt, recAA, recBB]

/-- C2 amended: each sampling step crosses at most one record boundary;
when the elapsed time covers the current record's duration it crosses
exactly one, carrying the overshoot forward, and the extra boundaries are
only crossed on subsequent samples. -/
theorem C2_at_most_one_boundary (s : RSVPState) (now : ℚ) :
    (loopStep s now).wordIndex ≤ s.wordIndex + 1 ∧
    (s.isPlaying = true → s.isPaused = false →
      ∀ h : s.wordIndex < s.words.length,
        now - s.lastTime ≥ (s.words.get ⟨s.wordIndex, h⟩).duration →
          (loopStep s now).wordIndex = s.wordIndex + 1 ∧
          (loopStep s now).lastTime =
            s.lastTime + (s.words.get ⟨s.wordIndex, h⟩).duration) := by
  constructor
  · unfold loopStep
    by_cases h1 : !s.isPlaying || s.isPaused
    · rw [if_pos h1]
      exact Nat.le_succ s.wordIndex
    · rw [if_neg h1]
      by_cases h2 : s.wordIndex ≥ s.words.length
      · rw [dif_pos h2]
        exact Nat.le_succ s.wordIndex
      · rw [dif_neg h2]
        by_cases h3 : now - s.lastTime ≥
            (s.words.get ⟨s.wordIndex, by omega⟩).duration
        · simp only [if_pos h3]
          exact Nat.le_refl _
        · simp only [if_neg h3]
          exact Nat.le_succ s.wordIndex
  · intro hp hq h hd
    unfold loopStep
    have h1 : ¬(!s.isPlaying || s.isPaused) = true := by
      simp [hp, hq]
    have h2 : ¬s.wordIndex ≥ s.words.length := by omega
    rw [if_neg h1, dif_neg h2]
    simp only [if_pos hd]
    exact ⟨trivial, trivial⟩

/-- Witness for `C2_at_most_one_boundary`: at `cexState` the 1000 ms sample
crosses exactly one boundary and accumulates exactly one duration. -/
theorem C2_at_most_one_boundary_witness :
    (loopStep cexState 1000).wordIndex = cexState.wordIndex + 1 ∧
    (loopStep cexState 1000).lastTime =
      cexState.lastTime +
        (cexState.words.get ⟨0, by norm_num [cexState]⟩).duration :=
  (C2_at_most_one_boundary cexState 1000).2 rfl rfl (by norm_num [cexState])
    (by norm_num [cexState, recAA])

/-- C7: `stop()` from any prior state resets both index copies to 0, clears
both flags (so the derived transport state is `Idle`) and clears the
displayed record. -/
theorem C7_stop_resets (s : RSVPState) :
    (handleStop s).currentWordIndex = 0 ∧ (handleStop s).wordIndex = 0 ∧
    (handleStop s).isPlaying = false ∧ (handleStop s).isPaused = false ∧
    readingState (handleStop s) = ReadingState.idle ∧
    (handleStop s).currentWord = none := by
  exact ⟨rfl, rfl, rfl, rfl, rfl, rfl⟩

/-- C8 fails on the code for `resume()`: from the idle state with no text,
`handleResume` is not a no-op — it sets the playing flag, moving the
derived transport state from `Idle` to `Playing`. -/
theorem C8_resume_not_noop :
    emptyIdle.words.length = 0 ∧
    readingState emptyIdle = ReadingState.idle ∧
    handleResume emptyIdle ≠ emptyIdle ∧
    readingState (handleResume emptyIdle) = ReadingState.playing := by
  decide

/-- C8 amended: on an empty sequence `start()` is a no-op and raises
nothing, while `resume()` raises nothing and zeroes the indices but sets
the playing flag; the playback effect's guard still blocks the sampling
loop from running. -/
theorem C8_empty_sequence (s : RSVPState) (h : s.words.length = 0) :
    handleStart s = s ∧
    handleResume s =
      { s with isPlaying := true, isPaused := false,
               wordIndex := 0, currentWordIndex := 0 } ∧
    loopGuardBlocks (handleResume s) = true := by
  refine ⟨?_, ?_, ?_⟩
  · unfold handleStart
    rw [if_pos h]
  · unfold handleResume
    rw [if_pos (Or.inl h)]
  · unfold loopGuardBlocks handleResume
    rw [if_pos (Or.inl h)]
    simp [h]

/-- Witness for `C8_empty_sequence` at the idle empty state. -/
theorem C8_empty_sequence_witness :
    handleStart emptyIdle = emptyIdle ∧
    handleResume emptyIdle =
      { emptyIdle with isPlaying := true, isPaused := false,
                       wordIndex := 0, currentWordIndex := 0 } ∧
    loopGuardBlocks (handleResume emptyIdle) = true :=
  C8_empty_sequence emptyIdle rfl

end RSVP
